import Mathlib

/-!
Shallow embedding of `alf/trainers/on_policy_trainer.py`.

The file defines two entry points, `train` and `play`, which orchestrate an
environment, an algorithm and an `OnPolicyDriver`.  We embed their observable
behaviour as traces of events: driver invocations (with the arguments passed),
checkpoint saves and restores (with the paths used), evaluation passes, log
lines, renders, sleeps and environment resets.

Collaborator objects are abstracted as parameters:
 - the driver's `run` method is a function from `max_num_steps` and the
   threaded `(time_step, policy_state)` pair to the next such pair;
 - `os.path.expanduser` reads the process environment (HOME), so it is an
   abstract function parameter shared between `train` and `play`;
 - `tf.train.latest_checkpoint` reads the filesystem, so it is an abstract
   function from a directory to an optional checkpoint path.

`os.path.join` (for a relative second component) and `os.path.dirname` are
pure and are embedded concretely (posix semantics, as in the source).
-/

namespace OnPolicyTrainer

/-- `path.startswith(sep)` for `sep = '/'`, computed on the characters. -/
def startsWithSlash (s : String) : Bool :=
  match s.data with
  | [] => false
  | c :: _ => c = '/'

/-- `path.endswith(sep)` for `sep = '/'`, computed on the characters. -/
def endsWithSlash (s : String) : Bool :=
  match s.data.reverse with
  | [] => false
  | c :: _ => c = '/'

/-- Posix `os.path.join(a, b)` for two components: if `b` is absolute it wins;
otherwise it is appended, inserting a separator unless `a` is empty or already
ends with one. -/
def ospath_join (a b : String) : String :=
  if startsWithSlash b then b
  else if a = "" ∨ endsWithSlash a then a ++ b
  else a ++ "/" ++ b

/-- Drop trailing separator characters (the `rstrip(sep)` of `posixpath.dirname`). -/
def dropTrailingSlashes (l : List Char) : List Char :=
  (l.reverse.dropWhile (fun c => c = '/')).reverse

/-- Posix `os.path.dirname` on the character list of the path: keep everything
up to and including the final separator, then strip trailing separators unless
the head consists only of separators. -/
def dirnameChars (l : List Char) : List Char :=
  match l.reverse.findIdx? (fun c => c = '/') with
  | none => []
  | some j =>
      let head := l.take (l.length - j)
      if head.all (fun c => c = '/') then head else dropTrailingSlashes head

/-- Posix `os.path.dirname`. -/
def dirname (s : String) : String := String.mk (dirnameChars s.data)

/-- Observable events of one `train` run.  `TS` and `PS` are the (opaque)
time-step and policy-state types threaded through the driver. -/
inductive TrainEvent (TS PS : Type) where
  | envReset : TrainEvent TS PS
  | driverRun (max_num_steps : Nat) (time_step : TS) (policy_state : PS) : TrainEvent TS PS
  | logTime (iter : Nat) : TrainEvent TS PS
  | checkpointSave (ckpt_dir : String) : TrainEvent TS PS
  | evalPass (iter : Nat) : TrainEvent TS PS
  deriving DecidableEq

/-- The body of one iteration of the `for iter in range(num_iterations)` loop
in `train_`, as the list of events it emits: the driver run with
`max_num_steps=num_steps_per_iter` on the incoming `(time_step, policy_state)`,
the wall-time log line, then a checkpoint save when
`(iter + 1) % checkpoint_interval == 0`, then an evaluation pass when an eval
environment is present and `(iter + 1) % eval_interval == 0`. -/
def trainIterEvents {TS PS : Type} (num_steps_per_iter checkpoint_interval eval_interval : Nat)
    (eval_env : Option Unit) (ckpt_dir : String) (iter : Nat)
    (time_step : TS) (policy_state : PS) : List (TrainEvent TS PS) :=
  [TrainEvent.driverRun num_steps_per_iter time_step policy_state,
   TrainEvent.logTime iter]
  ++ (if (iter + 1) % checkpoint_interval = 0
      then [TrainEvent.checkpointSave ckpt_dir] else [])
  ++ (if eval_env.isSome ∧ (iter + 1) % eval_interval = 0
      then [TrainEvent.evalPass iter] else [])

/-- The training loop: `iter` is the current iteration index, the second
argument the number of iterations still to run.  Returns the final threaded
`(time_step, policy_state)` pair and the concatenated event trace. -/
def trainLoop {TS PS : Type} (run : Nat → TS → PS → TS × PS)
    (num_steps_per_iter checkpoint_interval eval_interval : Nat)
    (eval_env : Option Unit) (ckpt_dir : String) :
    Nat → Nat → TS → PS → (TS × PS) × List (TrainEvent TS PS)
  | _, 0, time_step, policy_state => ((time_step, policy_state), [])
  | iter, Nat.succ n, time_step, policy_state =>
      let tp := run num_steps_per_iter time_step policy_state
      let rest := trainLoop run num_steps_per_iter checkpoint_interval eval_interval
        eval_env ckpt_dir (iter + 1) n tp.1 tp.2
      (rest.1,
       trainIterEvents num_steps_per_iter checkpoint_interval eval_interval
         eval_env ckpt_dir iter time_step policy_state ++ rest.2)

/-- The checkpoint directory used by `train` (and looked up by `play`):
`os.path.join(os.path.expanduser(train_dir), 'algorithm')`. -/
def ckpt_dir_of (expanduser : String → String) (train_dir : String) : String :=
  ospath_join (expanduser train_dir) "algorithm"

/-- The evaluation summary directory of `train`:
`os.path.join(os.path.dirname(os.path.expanduser(train_dir)), 'eval')`. -/
def eval_dir_of (expanduser : String → String) (train_dir : String) : String :=
  ospath_join (dirname (expanduser train_dir)) "eval"

/-- The event trace of `train`: the initial `env.reset()`, the iteration loop
started from the driver's initial `(time_step, policy_state)`, and the final
unconditional `checkpointer.save` after the loop. -/
def train {TS PS : Type} (expanduser : String → String) (train_dir : String)
    (eval_env : Option Unit) (run : Nat → TS → PS → TS × PS)
    (num_steps_per_iter num_iterations checkpoint_interval eval_interval : Nat)
    (time_step : TS) (policy_state : PS) : List (TrainEvent TS PS) :=
  TrainEvent.envReset ::
    (trainLoop run num_steps_per_iter checkpoint_interval eval_interval eval_env
        (ckpt_dir_of expanduser train_dir) 0 num_iterations time_step policy_state).2
    ++ [TrainEvent.checkpointSave (ckpt_dir_of expanduser train_dir)]

/-- The `(time_step, policy_state)` pair after `k` driver invocations, each
with `max_num_steps = num_steps_per_iter`. -/
def iterState {TS PS : Type} (run : Nat → TS → PS → TS × PS)
    (num_steps_per_iter : Nat) (p : TS × PS) (k : Nat) : TS × PS :=
  (fun q => run num_steps_per_iter q.1 q.2)^[k] p

/-- Extract the argument triple of a `driverRun` event. -/
def driverRunArgs {TS PS : Type} : TrainEvent TS PS → Option (Nat × TS × PS)
  | TrainEvent.driverRun m ts ps => some (m, ts, ps)
  | _ => none


/-- Unrolling of `trainLoop`: its event trace is the concatenation, over
`k < n`, of the events of iteration `start + k`, run on the state threaded
through `k` previous driver invocations. -/
theorem trainLoop_events_eq {TS PS : Type} (run : Nat → TS → PS → TS × PS)
    (nspi ci ei : Nat) (ee : Option Unit) (ckd : String) :
    ∀ (n start : Nat) (ts : TS) (ps : PS),
    (trainLoop run nspi ci ei ee ckd start n ts ps).2
      = (List.range n).flatMap (fun k =>
          trainIterEvents nspi ci ei ee ckd (start + k)
            (iterState run nspi (ts, ps) k).1 (iterState run nspi (ts, ps) k).2) := by
  intro n
  induction n with
  | zero => intro start ts ps; simp [trainLoop]
  | succ n ih =>
      intro start ts ps
      have hstep : (trainLoop run nspi ci ei ee ckd start (n + 1) ts ps).2
          = trainIterEvents nspi ci ei ee ckd start ts ps
            ++ (trainLoop run nspi ci ei ee ckd (start + 1) n
                  (run nspi ts ps).1 (run nspi ts ps).2).2 := rfl
      rw [hstep, ih (start + 1) (run nspi ts ps).1 (run nspi ts ps).2,
        List.range_succ_eq_map, List.flatMap_cons, List.flatMap_map]
      congr 1
      congr 1
      funext k
      have h2 : iterState run nspi (ts, ps) (k + 1)
          = iterState run nspi ((run nspi ts ps).1, (run nspi ts ps).2) k := by
        simp [iterState, Function.iterate_succ_apply]
      rw [show start + (k + 1) = start + 1 + k from by omega, h2]

/-- A per-iteration event block holds a `checkpointSave` exactly when
`(iter + 1)` is divisible by `checkpoint_interval`, and then only at the
configured checkpoint directory. -/
theorem checkpointSave_mem_trainIterEvents {TS PS : Type} (nspi ci ei : Nat)
    (ee : Option Unit) (ckd d : String) (iter : Nat) (ts : TS) (ps : PS) :
    TrainEvent.checkpointSave d ∈ trainIterEvents nspi ci ei ee ckd iter ts ps
      ↔ ((iter + 1) % ci = 0 ∧ d = ckd) := by
  unfold trainIterEvents
  split <;> split <;> simp_all

/-- A per-iteration event block holds an `evalPass` exactly when the eval
environment is present and `(iter + 1)` is divisible by `eval_interval`. -/
theorem evalPass_mem_trainIterEvents {TS PS : Type} (nspi ci ei : Nat)
    (ee : Option Unit) (ckd : String) (j iter : Nat) (ts : TS) (ps : PS) :
    TrainEvent.evalPass j ∈ trainIterEvents nspi ci ei ee ckd iter ts ps
      ↔ (ee.isSome = true ∧ (iter + 1) % ei = 0 ∧ j = iter) := by
  unfold trainIterEvents
  split <;> split <;> simp_all

/-- Each per-iteration event block contains exactly one driver invocation,
with `max_num_steps = num_steps_per_iter` and the incoming state pair. -/
theorem filterMap_driverRunArgs_trainIterEvents {TS PS : Type} (nspi ci ei : Nat)
    (ee : Option Unit) (ckd : String) (iter : Nat) (ts : TS) (ps : PS) :
    (trainIterEvents nspi ci ei ee ckd iter ts ps).filterMap driverRunArgs
      = [(nspi, ts, ps)] := by
  unfold trainIterEvents
  split <;> split <;> simp [driverRunArgs]

theorem flatMap_singleton_eq_map {α β : Type _} (l : List α) (f : α → β) :
    (l.flatMap fun a => [f a]) = l.map f := by
  induction l with
  | nil => rfl
  | cons a l ih => simp [ih]

/-- C1: in `train`, a checkpoint save occurs exactly at the end of every
iteration `i` with `(i + 1)` divisible by `checkpoint_interval`, and one
additional unconditional save occurs after the loop over `num_iterations`
ends: the trace decomposes as the initial reset, the per-iteration event
blocks, and a final `checkpointSave`, where the block of iteration `i`
contains a save exactly when `(i + 1) % checkpoint_interval = 0`. -/
theorem train_checkpoint_save_schedule {TS PS : Type}
    (expanduser : String → String) (train_dir : String) (eval_env : Option Unit)
    (run : Nat → TS → PS → TS × PS) (nspi N ci ei : Nat) (ts0 : TS) (ps0 : PS)
    (hc : 0 < ci) :
    train expanduser train_dir eval_env run nspi N ci ei ts0 ps0
      = TrainEvent.envReset ::
          ((List.range N).flatMap (fun k =>
            trainIterEvents nspi ci ei eval_env (ckpt_dir_of expanduser train_dir) k
              (iterState run nspi (ts0, ps0) k).1 (iterState run nspi (ts0, ps0) k).2))
          ++ [TrainEvent.checkpointSave (ckpt_dir_of expanduser train_dir)]
    ∧ ∀ (i : Nat) (ts : TS) (ps : PS) (d : String),
        TrainEvent.checkpointSave d
            ∈ trainIterEvents nspi ci ei eval_env (ckpt_dir_of expanduser train_dir) i ts ps
          ↔ ((i + 1) % ci = 0 ∧ d = ckpt_dir_of expanduser train_dir) := by
  have _ := hc
  constructor
  · unfold train
    rw [trainLoop_events_eq]
    simp
  · intro i ts ps d
    exact checkpointSave_mem_trainIterEvents nspi ci ei eval_env
      (ckpt_dir_of expanduser train_dir) d i ts ps

/-- Witness for C1 at the spec's scenario `num_iterations = 3`,
`checkpoint_interval = 2`: iteration index 1 (the second iteration) saves a
checkpoint. -/
theorem train_checkpoint_save_schedule_witness :
    TrainEvent.checkpointSave (ckpt_dir_of (fun s => s) "/log/train")
      ∈ trainIterEvents 10 2 10 (none : Option Unit)
          (ckpt_dir_of (fun s => s) "/log/train") 1 () () :=
  ((train_checkpoint_save_schedule (fun s => s) "/log/train" none
      (fun _ (_ : Unit) (_ : Unit) => ((), ())) 10 3 2 10 () () (by decide)).2
    1 () () (ckpt_dir_of (fun s => s) "/log/train")).mpr ⟨by decide, rfl⟩

/-- C2: in `train`, an evaluation pass happens at iteration `i` if and only if
an eval environment is present and `(i + 1) % eval_interval = 0` (with
`i < num_iterations`); with no eval environment no evaluation event ever
appears, for every configuration. -/
theorem train_eval_schedule {TS PS : Type}
    (expanduser : String → String) (train_dir : String) (eval_env : Option Unit)
    (run : Nat → TS → PS → TS × PS) (nspi N ci ei : Nat) (ts0 : TS) (ps0 : PS)
    (he : 0 < ei) :
    (∀ i : Nat,
      TrainEvent.evalPass i ∈ train expanduser train_dir eval_env run nspi N ci ei ts0 ps0
        ↔ (eval_env.isSome = true ∧ (i + 1) % ei = 0 ∧ i < N))
    ∧ (eval_env = none → ∀ i : Nat,
        TrainEvent.evalPass i ∉ train expanduser train_dir eval_env run nspi N ci ei ts0 ps0) := by
  have _ := he
  have hmem : ∀ i : Nat,
      TrainEvent.evalPass i ∈ train expanduser train_dir eval_env run nspi N ci ei ts0 ps0
        ↔ (eval_env.isSome = true ∧ (i + 1) % ei = 0 ∧ i < N) := by
    intro i
    unfold train
    rw [trainLoop_events_eq]
    simp only [List.mem_cons, List.mem_append, List.mem_flatMap, List.mem_range,
      List.mem_singleton, evalPass_mem_trainIterEvents, Nat.zero_add]
    constructor
    · rintro ((h | ⟨k, hk, hs, hm, rfl⟩) | (h | h)) <;> simp_all
    · rintro ⟨hs, hm, hi⟩
      exact Or.inl (Or.inr ⟨i, hi, hs, hm, rfl⟩)
  exact ⟨hmem, fun hnone i hmem2 => by
    rcases (hmem i).mp hmem2 with ⟨hs, -, -⟩
    rw [hnone] at hs
    simp at hs⟩

/-- Witness for C2: with an eval environment, `eval_interval = 1` and two
iterations, iteration 0 carries an evaluation pass. -/
theorem train_eval_schedule_witness :
    TrainEvent.evalPass 0 ∈ train (fun s => s) "/log/train" (some ()) (fun _ (_ : Unit) (_ : Unit) => ((), ())) 10 2 5 1 () () :=
  ((train_eval_schedule (fun s => s) "/log/train" (some ())
      (fun _ (_ : Unit) (_ : Unit) => ((), ())) 10 2 5 1 () () (by decide)).1 0).mpr
    (by decide)

/-- C4: for every `num_iterations = N`, `train` invokes the driver exactly `N`
times, once per iteration, each with `max_num_steps = num_steps_per_iter`, and
the state pair passed to the `k`-th call is the one returned by the `(k-1)`-th
call (the `k`-fold iterate from the initial pair). -/
theorem train_driver_call_sequence {TS PS : Type}
    (expanduser : String → String) (train_dir : String) (eval_env : Option Unit)
    (run : Nat → TS → PS → TS × PS) (nspi N ci ei : Nat) (ts0 : TS) (ps0 : PS) :
    (train expanduser train_dir eval_env run nspi N ci ei ts0 ps0).filterMap driverRunArgs
      = (List.range N).map (fun k => (nspi, iterState run nspi (ts0, ps0) k)) := by
  unfold train
  rw [trainLoop_events_eq]
  simp only [List.filterMap_cons, driverRunArgs, List.filterMap_append,
    List.filterMap_flatMap, filterMap_driverRunArgs_trainIterEvents, Nat.zero_add]
  rw [flatMap_singleton_eq_map]
  simp [List.filterMap_cons, driverRunArgs]

/-- The fields of a driver time step that `play` inspects: the step reward and
the terminal flag reported by `time_step.is_last()`. -/
structure TimeStep where
  reward : Int
  is_last : Bool
  deriving DecidableEq

/-- Observable events of one `play` run.  `PS` is the (opaque) policy-state
type threaded through the driver. -/
inductive PlayEvent (PS : Type) where
  | restore (ckpt_path : String) : PlayEvent PS
  | render : PlayEvent PS
  | envReset : PlayEvent PS
  | driverRun (max_num_steps : Nat) (time_step : TimeStep) (policy_state : PS) : PlayEvent PS
  | logEpisode (episode_length : Nat) (episode_reward : Int) : PlayEvent PS
  | sleep (seconds : ℚ) : PlayEvent PS
  deriving DecidableEq

/-- The local state of the `play` loop: the threaded `(time_step,
policy_state)` pair and the running per-episode accumulators. -/
structure PlayState (PS : Type) where
  time_step : TimeStep
  policy_state : PS
  episode_reward : Int
  episode_length : Nat
  deriving DecidableEq

/-- One iteration of the `for _ in range(num_steps)` loop of `play`: run the
driver for one step on the threaded pair; if the returned time step is
terminal, log the episode accumulators and reset them to zero, otherwise add
the step reward and increment the length; then render and sleep. -/
def playStep {PS : Type} (run : Nat → TimeStep → PS → TimeStep × PS)
    (sleep_time_per_step : ℚ) (st : PlayState PS) :
    PlayState PS × List (PlayEvent PS) :=
  let tp := run 1 st.time_step st.policy_state
  if tp.1.is_last then
    (⟨tp.1, tp.2, 0, 0⟩,
     [PlayEvent.driverRun 1 st.time_step st.policy_state,
      PlayEvent.logEpisode st.episode_length st.episode_reward,
      PlayEvent.render,
      PlayEvent.sleep sleep_time_per_step])
  else
    (⟨tp.1, tp.2, st.episode_reward + tp.1.reward, st.episode_length + 1⟩,
     [PlayEvent.driverRun 1 st.time_step st.policy_state,
      PlayEvent.render,
      PlayEvent.sleep sleep_time_per_step])

/-- The `play` loop: iterate `playStep` for the given number of steps,
concatenating the emitted events. -/
def playLoop {PS : Type} (run : Nat → TimeStep → PS → TimeStep × PS)
    (sleep_time_per_step : ℚ) :
    Nat → PlayState PS → PlayState PS × List (PlayEvent PS)
  | 0, st => (st, [])
  | Nat.succ n, st =>
      let se := playStep run sleep_time_per_step st
      let rest := playLoop run sleep_time_per_step n se.1
      (rest.1, se.2 ++ rest.2)

/-- Checkpoint path resolution of `play`: an explicit `checkpoint_name` is
joined onto the checkpoint directory; otherwise `tf.train.latest_checkpoint`
is consulted (and may report that none exists). -/
def ckpt_path_of (latest_checkpoint : String → Option String)
    (ckpt_dir : String) (checkpoint_name : Option String) : Option String :=
  match checkpoint_name with
  | some name => some (ospath_join ckpt_dir name)
  | none => latest_checkpoint ckpt_dir

/-- The event trace of `play`: an optional checkpoint restore, the initial
render and `env.reset()`, the stepping loop started with zeroed episode
accumulators, and the final `env.reset()` after the loop. -/
def play {PS : Type} (expanduser : String → String)
    (latest_checkpoint : String → Option String)
    (train_dir : String) (checkpoint_name : Option String)
    (run : Nat → TimeStep → PS → TimeStep × PS)
    (num_steps : Nat) (sleep_time_per_step : ℚ)
    (time_step : TimeStep) (policy_state : PS) : List (PlayEvent PS) :=
  (match ckpt_path_of latest_checkpoint (ckpt_dir_of expanduser train_dir) checkpoint_name with
   | some p => [PlayEvent.restore p]
   | none => [])
  ++ [PlayEvent.render, PlayEvent.envReset]
  ++ (playLoop run sleep_time_per_step num_steps
        ⟨time_step, policy_state, 0, 0⟩).2
  ++ [PlayEvent.envReset]

/-- The `play` loop state after `k` iterations of `playStep`. -/
def playIterState {PS : Type} (run : Nat → TimeStep → PS → TimeStep × PS)
    (sleep_time_per_step : ℚ) (st : PlayState PS) (k : Nat) : PlayState PS :=
  (fun s => (playStep run sleep_time_per_step s).1)^[k] st

/-- Extract the argument triple of a `driverRun` event of `play`. -/
def playRunArgs {PS : Type} : PlayEvent PS → Option (Nat × TimeStep × PS)
  | PlayEvent.driverRun m ts ps => some (m, ts, ps)
  | _ => none

/-- Recognize a `render` event. -/
def isRender {PS : Type} : PlayEvent PS → Bool
  | PlayEvent.render => true
  | _ => false

/-- Recognize an `envReset` event of `play`. -/
def isEnvResetEvent {PS : Type} : PlayEvent PS → Bool
  | PlayEvent.envReset => true
  | _ => false

/-- Recognize an episode log line. -/
def isLogEpisode {PS : Type} : PlayEvent PS → Bool
  | PlayEvent.logEpisode _ _ => true
  | _ => false

/-- Recognize a `restore` event. -/
def isRestore {PS : Type} : PlayEvent PS → Bool
  | PlayEvent.restore _ => true
  | _ => false

/-- Extract the duration of a `sleep` event. -/
def sleepSeconds {PS : Type} : PlayEvent PS → Option ℚ
  | PlayEvent.sleep s => some s
  | _ => none

/-- Unrolling of `playLoop`: its event trace is the concatenation, over
`k < n`, of the events of `playStep` on the state reached after `k` steps. -/
theorem playLoop_events_eq {PS : Type} (run : Nat → TimeStep → PS → TimeStep × PS)
    (t : ℚ) : ∀ (n : Nat) (st : PlayState PS),
    (playLoop run t n st).2
      = (List.range n).flatMap (fun k =>
          (playStep run t (playIterState run t st k)).2) := by
  intro n
  induction n with
  | zero => intro st; simp [playLoop]
  | succ n ih =>
      intro st
      have hstep : (playLoop run t (n + 1) st).2
          = (playStep run t st).2 ++ (playLoop run t n (playStep run t st).1).2 := rfl
      rw [hstep, ih (playStep run t st).1,
        List.range_succ_eq_map, List.flatMap_cons, List.flatMap_map]
      congr 1

/-- Recognize a `driverRun` event of `play`. -/
def isDriverRun {PS : Type} : PlayEvent PS → Bool
  | PlayEvent.driverRun _ _ _ => true
  | _ => false

theorem countP_flatMap {α β : Type _} (p : β → Bool) (l : List α) (f : α → List β) :
    (l.flatMap f).countP p = (l.map (fun a => (f a).countP p)).sum := by
  induction l with
  | nil => rfl
  | cons a l ih => simp [List.countP_append, ih]

theorem sum_map_ite_eq_countP {α : Type _} (p : α → Bool) (l : List α) :
    (l.map (fun a => if p a then 1 else 0)).sum = l.countP p := by
  induction l with
  | nil => rfl
  | cons a l ih => by_cases h : p a <;> simp [List.countP_cons, h, ih, Nat.add_comm]

/-- Each `playStep` event block contains exactly one driver invocation, with
`max_num_steps = 1` and the incoming state pair. -/
theorem filterMap_playRunArgs_playStep {PS : Type}
    (run : Nat → TimeStep → PS → TimeStep × PS) (t : ℚ) (st : PlayState PS) :
    ((playStep run t st).2).filterMap playRunArgs
      = [(1, st.time_step, st.policy_state)] := by
  by_cases h : (run 1 st.time_step st.policy_state).1.is_last = true <;>
    simp [playStep, h, playRunArgs]

/-- Each `playStep` event block renders exactly once. -/
theorem countP_isRender_playStep {PS : Type}
    (run : Nat → TimeStep → PS → TimeStep × PS) (t : ℚ) (st : PlayState PS) :
    ((playStep run t st).2).countP isRender = 1 := by
  by_cases h : (run 1 st.time_step st.policy_state).1.is_last = true <;>
    simp [playStep, h, isRender, List.countP_cons]

/-- Each `playStep` event block sleeps exactly once, for the configured
duration. -/
theorem filterMap_sleepSeconds_playStep {PS : Type}
    (run : Nat → TimeStep → PS → TimeStep × PS) (t : ℚ) (st : PlayState PS) :
    ((playStep run t st).2).filterMap sleepSeconds = [t] := by
  by_cases h : (run 1 st.time_step st.policy_state).1.is_last = true <;>
    simp [playStep, h, sleepSeconds]

/-- A `playStep` event block logs an episode line exactly when the returned
time step is terminal, and never resets the environment. -/
theorem countP_isLogEpisode_playStep {PS : Type}
    (run : Nat → TimeStep → PS → TimeStep × PS) (t : ℚ) (st : PlayState PS) :
    ((playStep run t st).2).countP isLogEpisode
        = (if (run 1 st.time_step st.policy_state).1.is_last then 1 else 0)
    ∧ ((playStep run t st).2).countP isEnvResetEvent = 0 := by
  by_cases h : (run 1 st.time_step st.policy_state).1.is_last = true <;>
    simp [playStep, h, isLogEpisode, isEnvResetEvent, List.countP_cons]

/-- C3: in `play`, the episode accumulators are reset to zero exactly on a
step whose returned time step reports termination; on every non-terminal step
they instead accumulate the step reward and increment the length. -/
theorem play_accumulator_reset_rule {PS : Type}
    (run : Nat → TimeStep → PS → TimeStep × PS) (t : ℚ) (st : PlayState PS) :
    (playStep run t st).1.episode_reward
        = (if (run 1 st.time_step st.policy_state).1.is_last then 0
           else st.episode_reward + (run 1 st.time_step st.policy_state).1.reward)
    ∧ (playStep run t st).1.episode_length
        = (if (run 1 st.time_step st.policy_state).1.is_last then 0
           else st.episode_length + 1) := by
  by_cases h : (run 1 st.time_step st.policy_state).1.is_last = true <;>
    simp [playStep, h]

/-- C9: in `play`, on a terminal step the episode log line reports the
accumulators as they stood before the step: the terminal step's reward is not
added and the terminal step is not counted in the length. -/
theorem play_terminal_step_excluded {PS : Type}
    (run : Nat → TimeStep → PS → TimeStep × PS) (t : ℚ) (st : PlayState PS)
    (h : (run 1 st.time_step st.policy_state).1.is_last = true) :
    (playStep run t st).2
      = [PlayEvent.driverRun 1 st.time_step st.policy_state,
         PlayEvent.logEpisode st.episode_length st.episode_reward,
         PlayEvent.render,
         PlayEvent.sleep t] := by
  simp [playStep, h]

/-- Witness for C9: a terminal step with reward 5 arriving while the
accumulators stand at length 3, reward 7 logs exactly `(3, 7)`. -/
theorem play_terminal_step_excluded_witness :
    (playStep (fun _ _ (_ : Unit) => (⟨5, true⟩, ())) 0 ⟨⟨0, false⟩, (), 7, 3⟩).2
      = [PlayEvent.driverRun 1 ⟨0, false⟩ (),
         PlayEvent.logEpisode 3 7,
         PlayEvent.render,
         PlayEvent.sleep 0] :=
  play_terminal_step_excluded (fun _ _ (_ : Unit) => (⟨5, true⟩, ())) 0
    ⟨⟨0, false⟩, (), 7, 3⟩ rfl

/-- C6: the main loop of `play` executes exactly `num_steps` iterations; each
iteration invokes the driver with `max_num_steps = 1` on the threaded state,
renders one frame and sleeps `sleep_time_per_step`, and `play` wraps the loop
between its restore/reset prologue and the final reset. -/
theorem play_loop_structure {PS : Type} (expanduser : String → String)
    (latest_checkpoint : String → Option String) (train_dir : String)
    (checkpoint_name : Option String) (run : Nat → TimeStep → PS → TimeStep × PS)
    (num_steps : Nat) (t : ℚ) (ts0 : TimeStep) (ps0 : PS) :
    play expanduser latest_checkpoint train_dir checkpoint_name run num_steps t ts0 ps0
      = (match ckpt_path_of latest_checkpoint (ckpt_dir_of expanduser train_dir) checkpoint_name with
         | some p => [PlayEvent.restore p]
         | none => [])
        ++ [PlayEvent.render, PlayEvent.envReset]
        ++ (playLoop run t num_steps ⟨ts0, ps0, 0, 0⟩).2
        ++ [PlayEvent.envReset]
    ∧ (playLoop run t num_steps ⟨ts0, ps0, 0, 0⟩).2.filterMap playRunArgs
        = (List.range num_steps).map (fun k =>
            (1, (playIterState run t ⟨ts0, ps0, 0, 0⟩ k).time_step,
                (playIterState run t ⟨ts0, ps0, 0, 0⟩ k).policy_state))
    ∧ (playLoop run t num_steps ⟨ts0, ps0, 0, 0⟩).2.countP isRender = num_steps
    ∧ (playLoop run t num_steps ⟨ts0, ps0, 0, 0⟩).2.filterMap sleepSeconds
        = List.replicate num_steps t := by
  refine ⟨rfl, ?_, ?_, ?_⟩
  · rw [playLoop_events_eq, List.filterMap_flatMap]
    simp only [filterMap_playRunArgs_playStep]
    rw [flatMap_singleton_eq_map]
  · rw [playLoop_events_eq, countP_flatMap]
    simp [countP_isRender_playStep]
  · rw [playLoop_events_eq, List.filterMap_flatMap]
    simp only [filterMap_sleepSeconds_playStep]
    rw [flatMap_singleton_eq_map]
    simp [List.map_const', List.eq_replicate_iff]

/-- C10: in `play`, an episode log line appears exactly once per terminal
step, so a final unfinished episode's accumulators are never logged; the loop
itself never resets the environment, and `play` performs its closing
`env.reset()` once, after the loop. -/
theorem play_final_episode_discarded {PS : Type} (expanduser : String → String)
    (latest_checkpoint : String → Option String) (train_dir : String)
    (checkpoint_name : Option String) (run : Nat → TimeStep → PS → TimeStep × PS)
    (num_steps : Nat) (t : ℚ) (ts0 : TimeStep) (ps0 : PS) :
    (playLoop run t num_steps (⟨ts0, ps0, 0, 0⟩ : PlayState PS)).2.countP isLogEpisode
        = (List.range num_steps).countP (fun k =>
            (run 1 (playIterState run t ⟨ts0, ps0, 0, 0⟩ k).time_step
                   (playIterState run t ⟨ts0, ps0, 0, 0⟩ k).policy_state).1.is_last)
    ∧ (playLoop run t num_steps (⟨ts0, ps0, 0, 0⟩ : PlayState PS)).2.countP isEnvResetEvent = 0
    ∧ play expanduser latest_checkpoint train_dir checkpoint_name run num_steps t ts0 ps0
        = (match ckpt_path_of latest_checkpoint (ckpt_dir_of expanduser train_dir) checkpoint_name with
           | some p => [PlayEvent.restore p]
           | none => [])
          ++ [PlayEvent.render, PlayEvent.envReset]
          ++ (playLoop run t num_steps ⟨ts0, ps0, 0, 0⟩).2
          ++ [PlayEvent.envReset] := by
  refine ⟨?_, ?_, rfl⟩
  · rw [playLoop_events_eq, countP_flatMap]
    have hmap : ∀ s : PlayState PS, ((playStep run t s).2).countP isLogEpisode
        = (if (run 1 s.time_step s.policy_state).1.is_last then 1 else 0) :=
      fun s => (countP_isLogEpisode_playStep run t s).1
    simp only [hmap]
    rw [sum_map_ite_eq_countP]
  · rw [playLoop_events_eq, countP_flatMap]
    have hmap : ∀ s : PlayState PS, ((playStep run t s).2).countP isEnvResetEvent = 0 :=
      fun s => (countP_isLogEpisode_playStep run t s).2
    simp [hmap]

/-- C5: checkpoint resolution in `play`: a supplied `checkpoint_name` is
joined onto the algorithm checkpoint directory; an omitted one falls back to
`tf.train.latest_checkpoint`; a restore event appears exactly when a path was
resolved, and when no checkpoint exists the loop still performs all
`num_steps` driver invocations. -/
theorem play_checkpoint_resolution {PS : Type} (expanduser : String → String)
    (latest_checkpoint : String → Option String) (train_dir : String)
    (run : Nat → TimeStep → PS → TimeStep × PS)
    (num_steps : Nat) (t : ℚ) (ts0 : TimeStep) (ps0 : PS) :
    (∀ name : String,
      ckpt_path_of latest_checkpoint (ckpt_dir_of expanduser train_dir) (some name)
        = some (ospath_join (ckpt_dir_of expanduser train_dir) name))
    ∧ ckpt_path_of latest_checkpoint (ckpt_dir_of expanduser train_dir) none
        = latest_checkpoint (ckpt_dir_of expanduser train_dir)
    ∧ (∀ checkpoint_name : Option String,
        (play expanduser latest_checkpoint train_dir checkpoint_name run num_steps t ts0 ps0).countP isRestore
          = (match ckpt_path_of latest_checkpoint (ckpt_dir_of expanduser train_dir) checkpoint_name with
             | some _ => 1
             | none => 0))
    ∧ (latest_checkpoint (ckpt_dir_of expanduser train_dir) = none →
        (play expanduser latest_checkpoint train_dir none run num_steps t ts0 ps0).countP isRestore = 0
        ∧ (play expanduser latest_checkpoint train_dir none run num_steps t ts0 ps0).countP isDriverRun
            = num_steps) := by
  have hloopRestore : (playLoop run t num_steps (⟨ts0, ps0, 0, 0⟩ : PlayState PS)).2.countP isRestore = 0 := by
    rw [playLoop_events_eq, countP_flatMap]
    have hmap : ∀ s : PlayState PS, ((playStep run t s).2).countP isRestore = 0 := by
      intro s
      by_cases h : (run 1 s.time_step s.policy_state).1.is_last = true <;>
        simp [playStep, h, isRestore, List.countP_cons]
    simp [hmap]
  have hloopRun : (playLoop run t num_steps (⟨ts0, ps0, 0, 0⟩ : PlayState PS)).2.countP isDriverRun = num_steps := by
    rw [playLoop_events_eq, countP_flatMap]
    have hmap : ∀ s : PlayState PS, ((playStep run t s).2).countP isDriverRun = 1 := by
      intro s
      by_cases h : (run 1 s.time_step s.policy_state).1.is_last = true <;>
        simp [playStep, h, isDriverRun, List.countP_cons]
    simp [hmap]
  refine ⟨fun name => rfl, rfl, ?_, ?_⟩
  · intro checkpoint_name
    unfold play
    rcases hr : ckpt_path_of latest_checkpoint (ckpt_dir_of expanduser train_dir) checkpoint_name with _ | p <;>
      simp [hr, List.countP_append, List.countP_cons, isRestore, hloopRestore]
  · intro hnone
    unfold play
    rw [show ckpt_path_of latest_checkpoint (ckpt_dir_of expanduser train_dir) none
          = latest_checkpoint (ckpt_dir_of expanduser train_dir) from rfl, hnone]
    constructor <;>
      simp [List.countP_append, List.countP_cons, isRestore, isDriverRun, hloopRestore, hloopRun]

/-- Witness for C5: with a filesystem holding no checkpoint and no explicit
name, `play` over 2 steps attempts no restore and still runs the driver
twice. -/
theorem play_checkpoint_resolution_witness :
    (play (fun s => s) (fun _ => none) "/log/train" none
        (fun _ ts (_ : Unit) => (ts, ())) 2 0 ⟨0, false⟩ ()).countP isRestore = 0
    ∧ (play (fun s => s) (fun _ => none) "/log/train" none
        (fun _ ts (_ : Unit) => (ts, ())) 2 0 ⟨0, false⟩ ()).countP isDriverRun = 2 :=
  (play_checkpoint_resolution (fun s => s) (fun _ => none) "/log/train"
      (fun _ ts (_ : Unit) => (ts, ())) 2 0 ⟨0, false⟩ ()).2.2.2 rfl

/-- C7: every checkpoint save of `train` goes to
`join(expanduser(train_dir), 'algorithm')`; that is exactly the directory in
which `play` resolves checkpoints; and evaluation summaries go to
`join(dirname(expanduser(train_dir)), 'eval')`. -/
theorem train_play_directory_layout {TS PS : Type}
    (expanduser : String → String) (latest_checkpoint : String → Option String)
    (train_dir : String) (eval_env : Option Unit) (run : Nat → TS → PS → TS × PS)
    (nspi N ci ei : Nat) (ts0 : TS) (ps0 : PS) :
    (∀ d : String,
      TrainEvent.checkpointSave d ∈ train expanduser train_dir eval_env run nspi N ci ei ts0 ps0
        → d = ospath_join (expanduser train_dir) "algorithm")
    ∧ ckpt_dir_of expanduser train_dir = ospath_join (expanduser train_dir) "algorithm"
    ∧ eval_dir_of expanduser train_dir = ospath_join (dirname (expanduser train_dir)) "eval"
    ∧ (∀ checkpoint_name : Option String,
        ckpt_path_of latest_checkpoint (ckpt_dir_of expanduser train_dir) checkpoint_name
          = ckpt_path_of latest_checkpoint (ospath_join (expanduser train_dir) "algorithm")
              checkpoint_name) := by
  refine ⟨?_, rfl, rfl, fun checkpoint_name => rfl⟩
  intro d hd
  unfold train at hd
  rw [trainLoop_events_eq] at hd
  simp only [List.mem_cons, List.mem_append, List.mem_flatMap, List.mem_range,
    List.mem_singleton, checkpointSave_mem_trainIterEvents] at hd
  rcases hd with (hd | ⟨k, hk, hmod, rfl⟩) | (hd | hd) <;> simp_all [ckpt_dir_of]

/-- Witness for C7: the final save of a one-iteration `train` run over
`train_dir = "/log/train"` is at `"/log/train/algorithm"`. -/
theorem train_play_directory_layout_witness :
    "/log/train/algorithm" = ospath_join ((fun s => s) "/log/train") "algorithm" :=
  (train_play_directory_layout (fun s => s) (fun _ => none) "/log/train" none
      (fun _ (_ : Unit) (_ : Unit) => ((), ())) 10 1 1 1 () ()).1
    "/log/train/algorithm" (by
      have h : ckpt_dir_of (fun s => s) "/log/train" = "/log/train/algorithm" := by decide
      unfold train
      rw [h]
      exact List.mem_cons_of_mem _ (List.mem_append_right _ (List.mem_singleton_self _)))

end OnPolicyTrainer
